import Mathlib

/-!
Shallow embedding of the upload-coordination and gallery-materialization
subsystem of the memorial photo site: the presigned-upload handler with
hash-based deduplication, the push-upload handlers (busboy-based and
manual-parser-based), the byte-level multipart parser, and the paginating
gallery function.  Strings stand for JS strings and byte buffers are
lists of characters (the payloads in question are ASCII at the positions
the parser inspects, so `Buffer` offsets coincide with list indices).
-/

namespace Memorial

/-! ## Character-level helpers shared by the handlers -/

/-- Character class `[a-zA-Z0-9._-]` of the filename-sanitising regex
`filename.replace(/[^a-zA-Z0-9._-]/g, "_")`. -/
def isAllowedFilenameChar (c : Char) : Bool :=
  (decide ('a' ≤ c) && decide (c ≤ 'z')) ||
  (decide ('A' ≤ c) && decide (c ≤ 'Z')) ||
  (decide ('0' ≤ c) && decide (c ≤ '9')) ||
  c == '.' || c == '_' || c == '-'

/-- Character class `[a-zA-Z0-9]` of the contributor-sanitising regex
`contributorName.replace(/[^a-zA-Z0-9]/g, "_")`. -/
def isAlnumChar (c : Char) : Bool :=
  (decide ('a' ≤ c) && decide (c ≤ 'z')) ||
  (decide ('A' ≤ c) && decide (c ≤ 'Z')) ||
  (decide ('0' ≤ c) && decide (c ≤ '9'))

/-- Embeds `filename.replace(/[^a-zA-Z0-9._-]/g, "_")`. -/
def safeFilename (filename : String) : String :=
  String.mk (filename.data.map (fun c => if isAllowedFilenameChar c then c else '_'))

/-- Embeds `contributorName.replace(/[^a-zA-Z0-9]/g, "_")`. -/
def sanitizeContributor (contributorName : String) : String :=
  String.mk (contributorName.data.map (fun c => if isAlnumChar c then c else '_'))

/-- Embeds `new Date().toISOString().replace(/[:.]/g, "-").slice(0, 19)`,
with the current instant supplied as its ISO-8601 rendering `nowIso`. -/
def tsKey (nowIso : String) : String :=
  String.mk ((nowIso.data.map (fun c => if c == ':' || c == '.' then '-' else c)).take 19)

/-! ## Key Resolver and presigned-upload handler (get-upload-url function) -/

/-- Object-key resolution of the presigned-upload handler: with a file
hash, `Memorial_Guest_UPLOADS/${fileHash}_${safeFilename}`; without one,
`Memorial_Guest_UPLOADS/${timestamp}_${safeFilename}`. -/
def resolvedKey (nowIso : String) (fileHash : Option String) (filename : String) : String :=
  match fileHash with
  | some h => "Memorial_Guest_UPLOADS/" ++ h ++ "_" ++ safeFilename filename
  | none => "Memorial_Guest_UPLOADS/" ++ tsKey nowIso ++ "_" ++ safeFilename filename

/-- Outcome of the `HeadObjectCommand` existence probe as the handler can
observe it: the send resolves (object exists), or it rejects, either with
a genuine not-found error or with any other failure (network fault, ...). -/
inductive HeadResult where
  | found
  | errNotFound
  | errOther (msg : String)
deriving DecidableEq, Repr

/-- Response of the presigned-upload handler, keeping the fields the
claims are about. -/
inductive PresignOutcome where
  | validationError (msg : String)
  | skipped (objectKey : String)
  | presigned (objectKey : String) (contentType : String) (expiresIn : Nat)
  | storageUnavailable (msg : String)
deriving DecidableEq, Repr

/-- Embeds the body of the get-upload-url handler from the filename check
onward (the request already parsed, credentials configured, method POST).
The storage service's existence probe is passed in as `head`.  Note the
source wraps the probe in `try { ... } catch (err) { /* proceed */ }`, so
both rejection outcomes fall through to presigning. -/
def presignUploadHandler (nowIso : String) (filename : String)
    (contentType : Option String) (fileHash : Option String)
    (head : String → HeadResult) : PresignOutcome :=
  if filename = "" then
    .validationError "Filename is required"
  else
    let key := resolvedKey nowIso fileHash filename
    match fileHash with
    | some _ =>
        match head key with
        | .found => .skipped key
        | .errNotFound => .presigned key (contentType.getD "application/octet-stream") 3600
        | .errOther _ => .presigned key (contentType.getD "application/octet-stream") 3600
    | none => .presigned key (contentType.getD "application/octet-stream") 3600

/-! ## Generic buffer helpers (JS Buffer and String methods) -/

/-- Whether `pat` occurs in `body` at offset `i` (full occurrence). -/
def subAt (body pat : List Char) (i : Nat) : Bool :=
  pat == ((body.drop i).take pat.length)

/-- Embeds `body.indexOf(pat, start)` of JS buffers, returning `none` for
the sentinel `-1`: the least offset `i ≥ start` at which `pat` occurs. -/
def bufIndexOf (body pat : List Char) (start : Nat) : Option Nat :=
  (List.range (body.length + 1)).find? (fun i => decide (start ≤ i) && subAt body pat i)

/-- Embeds `s.toLowerCase()` (ASCII-faithful). -/
def lowerStr (s : String) : String :=
  String.mk (s.data.map Char.toLower)

/-- Embeds `s.endsWith(suffix)`. -/
def strEndsWith (s suffix : String) : Bool :=
  s.data.drop (s.data.length - suffix.data.length) == suffix.data

/-- Embeds JS `s.startsWith(p)`. -/
def strStartsWith (s p : String) : Bool :=
  s.data.take p.data.length == p.data

/-- Embeds `s.includes(p)`. -/
def strContains (s p : String) : Bool :=
  (List.range (s.data.length + 1)).any (fun i => subAt s.data p.data i)

/-- Embeds `s.replace(pat, "")` for a plain (non-global) string pattern:
removes the first occurrence of `pat`, if any. -/
def removeFirst (s pat : String) : String :=
  match bufIndexOf s.data pat.data 0 with
  | none => s
  | some i => String.mk (s.data.take i ++ s.data.drop (i + pat.data.length))

/-- Embeds `s.split(sep)` for a single-character separator, on character
lists (so it evaluates by reduction; `"".split` gives `[""]`, as in JS). -/
def splitOnChar (sep : Char) : List Char → List (List Char)
  | [] => [[]]
  | c :: rest =>
      let r := splitOnChar sep rest
      if c = sep then [] :: r
      else
        match r with
        | [] => [[c]]
        | h :: t => (c :: h) :: t

/-! ## Gallery function (gallery.js) -/

/-- An object record of a `ListObjectsV2` page (`Key`, `Size`,
`LastModified`). -/
structure S3Object where
  key : String
  size : Nat
  lastModified : String
deriving DecidableEq, Repr

/-- One page of the storage service's listing API: its `Contents`, its
`IsTruncated` flag, and its `NextContinuationToken`. -/
structure ListPage where
  contents : List S3Object
  isTruncated : Bool
  nextToken : Option String
deriving DecidableEq, Repr

/-- Embeds the pagination loop of the gallery handler: request a page,
append its contents, and continue with
`continuationToken = listResponse.IsTruncated ? listResponse.NextContinuationToken : null`
while the token is non-null.  The service's successive responses are
supplied as the list `pages`, consumed in order. -/
def enumerateBucket : List ListPage → List S3Object
  | [] => []
  | p :: rest =>
      p.contents ++
        (match (if p.isTruncated then p.nextToken else none) with
         | some _ => enumerateBucket rest
         | none => [])

/-- The fixed allow-list of media extensions of the gallery filter. -/
def mediaExtensions : List String :=
  [".jpg", ".jpeg", ".png", ".gif", ".webp", ".heic", ".heif", ".mp4", ".mov", ".webm"]

/-- The gallery filter predicate: on the lowercased key, exclude keys
starting with an underscore or containing `manifest`, then keep keys
ending with one of the media extensions. -/
def isMediaKey (key : String) : Bool :=
  let k := lowerStr key
  if strStartsWith k "_" || strContains k "manifest" then false
  else mediaExtensions.any (fun ext => strEndsWith k ext)

/-- Embeds the JS array-destructuring swap `[a[i], a[j]] = [a[j], a[i]]`
(identity when an index is out of range; the shuffle only uses in-range
indices). -/
def swapL {α : Type} (l : List α) (i j : Nat) : List α :=
  match l.get? i, l.get? j with
  | some a, some b => (l.set i b).set j a
  | _, _ => l

/-- The countdown of the Fisher-Yates loop
`for (let i = array.length - 1; i > 0; i--)`; the random draw
`Math.floor(Math.random() * (i + 1))` at index `i` is modelled by
`r i % (i + 1)`, which ranges over exactly the same values `0..i`. -/
def fyAux {α : Type} (r : Nat → Nat) (l : List α) : Nat → List α
  | 0 => l
  | i + 1 => fyAux r (swapL l (i + 1) (r (i + 1) % (i + 2))) i

/-- Embeds `shuffleArray` (Fisher-Yates) of the gallery handler. -/
def shuffleArray {α : Type} (r : Nat → Nat) (l : List α) : List α :=
  fyAux r l (l.length - 1)

/-- A gallery item as the handler responds with it. -/
structure Photo where
  key : String
  url : String
  filename : String
  contributor : String
  size : Nat
  lastModified : String
  isVideo : Bool
  isHeic : Bool
deriving DecidableEq, Repr

/-- Embeds the per-item projection of the gallery handler: split the key
on `/`, derive contributor and filename, classify video/HEIC, and attach
the signed read URL (signing is supplied as the pure map `sign`). -/
def projectPhoto (sign : String → String) (o : S3Object) : Photo :=
  let parts := (splitOnChar '/' o.key.data).map String.mk
  let contributor :=
    String.mk (((removeFirst (parts.headD "") "_UPLOADS").data).map
      (fun c => if c == '_' then ' ' else c))
  let filename := parts.getLastD ""
  { key := o.key
    url := sign o.key
    filename := filename
    contributor := contributor
    size := o.size
    lastModified := o.lastModified
    isVideo := [".mp4", ".mov", ".webm"].any (fun ext => strEndsWith (lowerStr o.key) ext)
    isHeic := [".heic", ".heif"].any (fun ext => strEndsWith (lowerStr o.key) ext) }

/-- The gallery pipeline after enumeration: filter to media keys, shuffle,
take at most 50, and project each sampled object to a gallery item. -/
def galleryPhotos (sign : String → String) (r : Nat → Nat) (objs : List S3Object) : List Photo :=
  let mediaFiles := objs.filter (fun o => isMediaKey o.key)
  let shuffledFiles := shuffleArray r mediaFiles
  (shuffledFiles.take 50).map (projectPhoto sign)

/-- The whole gallery flow: exhaustive enumeration followed by the
sampler. -/
def galleryHandler (sign : String → String) (r : Nat → Nat) (pages : List ListPage) : List Photo :=
  galleryPhotos sign r (enumerateBucket pages)

/-! ## Manual multipart parser (parseMultipart) and the push handlers -/

/-- Embeds `body.slice(a, b)` of JS buffers for `0 ≤ a ≤ b`. -/
def sliceBuf (body : List Char) (a b : Nat) : List Char :=
  (body.take b).drop a

/-- The blank-line marker separating a part's headers from its body. -/
def crlfcrlf : List Char := ['\r', '\n', '\r', '\n']

/-- The boundary-occurrence collection loop of `parseMultipart` (lines
scanning `body.indexOf(boundaryBuffer, ...)`): from a located occurrence
`idx`, find the next occurrence; if none, break; otherwise push the slice
between the end of this occurrence and the start of the next, and
continue there.  The pattern is passed as `c :: cs` so it is visibly
non-empty (it is always `--` followed by the boundary token). -/
def collectLoop (body : List Char) (c : Char) (cs : List Char) : Nat → Nat → List (List Char)
  | _, 0 => []
  | idx, fuel + 1 =>
      match bufIndexOf body (c :: cs) (idx + (c :: cs).length) with
      | none => []
      | some nextIdx =>
          sliceBuf body (idx + (c :: cs).length) nextIdx :: collectLoop body c cs nextIdx fuel

/-- The raw part segments `parseMultipart` collects: locate the first
occurrence of `--boundary`, then gather the segments between consecutive
occurrences.  The fuel `body.length + 1` bounds the iterations: every
found occurrence lies within the buffer and each one starts strictly
beyond its predecessor (the non-empty pattern advances the cursor), so
the loop can run at most `body.length + 1` times; the equivalence theorem
with the greedy occurrence characterisation below certifies the bound. -/
def segmentsOf (body boundary : List Char) : List (List Char) :=
  match bufIndexOf body ('-' :: '-' :: boundary) 0 with
  | none => []
  | some idx => collectLoop body '-' ('-' :: boundary) idx (body.length + 1)

/-- Specification-side definition (for the claim comparing the collection
loop against the spec's reading): all offsets at which the pattern occurs
in the buffer, in increasing order. -/
def allMatches (body pat : List Char) : List Nat :=
  (List.range (body.length + 1)).filter (fun i => subAt body pat i)

/-- Specification-side definition: greedy selection of occurrence
offsets — keep the first offset, discard every offset that starts before
the kept occurrence ends (`plen` bytes later), continue.  These are
exactly the boundary occurrences the spec speaks of. -/
def greedyPick (plen : Nat) : List Nat → List Nat
  | [] => []
  | i :: rest => i :: greedyPick plen (rest.filter (fun j => decide (i + plen ≤ j)))
termination_by l => l.length
decreasing_by
  exact Nat.lt_succ_of_le (List.length_filter_le _ _)

/-- Specification-side definition: the boundary occurrences of the
pattern in the buffer. -/
def occList (body pat : List Char) : List Nat :=
  greedyPick pat.length (allMatches body pat)

/-- Specification-side definition: the parts fully delimited by
consecutive boundary occurrences — each adjacent pair of offsets
contributes the bytes between the end of the first occurrence and the
start of the second; a final unpaired occurrence contributes nothing. -/
def pairSlices (body : List Char) (plen : Nat) : List Nat → List (List Char)
  | a :: b :: rest => sliceBuf body (a + plen) b :: pairSlices body plen (b :: rest)
  | _ => []

/-- JS whitespace class `\s` (the ASCII members, which are the only ones
the handlers can meet in header text). -/
def isJsWhitespace (c : Char) : Bool :=
  c == ' ' || c == '\t' || c == '\n' || c == '\r' || c == '\x0b' || c == '\x0c'

/-- Embeds `s.trim()` on character lists. -/
def trimChars (l : List Char) : List Char :=
  ((l.dropWhile isJsWhitespace).reverse.dropWhile isJsWhitespace).reverse

/-- One attempt of the regex `pat("([^"]+)")` at the current position:
the literal `pat` (already ending in `="`), then a non-empty capture of
non-quote characters, then the closing quote. -/
def capHere (pat s : List Char) : Option (List Char) :=
  if subAt s pat 0 then
    let rest := s.drop pat.length
    let cap := rest.takeWhile (fun ch => !(ch == '"'))
    if cap.isEmpty then none
    else if cap.length < rest.length then some cap else none
  else none

/-- Embeds `headers.match(/pat"([^"]+)"/)`: try each start position from
the left, returning the first successful capture. -/
def scanCapture (pat : List Char) : List Char → Option (List Char)
  | [] => none
  | ch :: rest =>
      match capHere pat (ch :: rest) with
      | some v => some v
      | none => scanCapture pat rest

/-- One attempt of `/Content-Type:\s*([^\r\n]+)/i` at the current
position. -/
def ctHere (s : List Char) : Option (List Char) :=
  if (s.take 13).map Char.toLower == "content-type:".data then
    let rest := (s.drop 13).dropWhile isJsWhitespace
    let cap := rest.takeWhile (fun ch => !(ch == '\r') && !(ch == '\n'))
    if cap.isEmpty then none else some cap
  else none

/-- Embeds `headers.match(/Content-Type:\s*([^\r\n]+)/i)`. -/
def scanContentType : List Char → Option (List Char)
  | [] => none
  | ch :: rest =>
      match ctHere (ch :: rest) with
      | some v => some v
      | none => scanContentType rest

/-- The body-extraction step of `parseMultipart` once the blank line is
found at `headerEnd`: `content = part.slice(headerEnd + 4)` and
`cleanContent = content.slice(0, content.length - 2)` (the final two
bytes are removed unconditionally; truncated subtraction models the
clamping of the negative end index when `content` is shorter than two
bytes). -/
def cleanBody (part : List Char) (headerEnd : Nat) : List Char :=
  let content := part.drop (headerEnd + 4)
  content.take (content.length - 2)

/-- The body the parser extracts from one raw part segment, `none` when
the segment has no blank-line separator (the segment is then skipped). -/
def segBody (part : List Char) : Option (List Char) :=
  match bufIndexOf part crlfcrlf 0 with
  | none => none
  | some headerEnd => some (cleanBody part headerEnd)

/-- A decoded file part (`filename`, `contentType`, `data`). -/
structure MultipartFile where
  filename : String
  contentType : String
  data : List Char
deriving DecidableEq, Repr

/-- The parser's result record `{ files, contributor }`. -/
structure MultipartResult where
  files : List MultipartFile
  contributor : String
deriving DecidableEq, Repr

/-- Processing of one raw part segment: find the blank line (skip the
segment if absent), split headers from the two-byte-stripped body, then
classify by the `filename="..."` capture, falling back to the
`name="..."` capture, where only the exact name `contributor` is
meaningful; anything else is ignored. -/
def processPart (acc : MultipartResult) (part : List Char) : MultipartResult :=
  match bufIndexOf part crlfcrlf 0 with
  | none => acc
  | some headerEnd =>
      let headers := part.take headerEnd
      let cleanContent := cleanBody part headerEnd
      match scanCapture "filename=\"".data headers with
      | some fn =>
          let ct := match scanContentType headers with
                    | some v => String.mk v
                    | none => "application/octet-stream"
          { acc with files := acc.files ++
              [{ filename := String.mk fn, contentType := ct, data := cleanContent }] }
      | none =>
          match scanCapture "name=\"".data headers with
          | some nm =>
              if String.mk nm = "contributor" then
                let v := trimChars cleanContent
                { acc with contributor := if v.isEmpty then "Memorial_Guest" else String.mk v }
              else acc
          | none => acc

/-- Embeds `parseMultipart(body, boundary)`: collect the delimited
segments and fold the per-part processing over them, starting from
`{ files: [], contributor: "Memorial_Guest" }`. -/
def parseMultipart (body boundary : List Char) : MultipartResult :=
  (segmentsOf body boundary).foldl processPart { files := [], contributor := "Memorial_Guest" }

/-- One entry of the `uploadedFiles` response array. -/
structure UploadedFile where
  filename : String
  objectKey : String
  size : Nat
deriving DecidableEq, Repr

/-- Outcome of a push-upload handler, restricted to the fields the claims
are about: the 400 `No files uploaded` rejection and the 200 success
response. -/
inductive PushOutcome where
  | noFiles
  | ok (message : String) (files : List UploadedFile)
deriving DecidableEq, Repr

/-- The shared upload loop of both push handlers: one object key
`${folderName}/${timestamp}_${safeFilename}` and one storage write per
decoded file. -/
def pushUploadedFiles (nowIso : String) (contributor : String)
    (files : List MultipartFile) : List UploadedFile :=
  let timestamp := tsKey nowIso
  let folderName := sanitizeContributor contributor ++ "_UPLOADS"
  files.map (fun f =>
    { filename := f.filename
      objectKey := folderName ++ "/" ++ timestamp ++ "_" ++ safeFilename f.filename
      size := f.data.length })

/-- Embeds the manual-parser push handler from the `parseMultipart` call
onward: it loops over the parsed files (writing each) and responds with
success — it has no zero-file check.  The second component lists the keys
written to storage. -/
def manualPushHandler (nowIso : String) (parsed : MultipartResult) :
    PushOutcome × List String :=
  let uploaded := pushUploadedFiles nowIso parsed.contributor parsed.files
  (.ok (toString uploaded.length ++ " photo(s) uploaded successfully") uploaded,
   uploaded.map (fun u => u.objectKey))

/-- Embeds the busboy-based push handler from the decoded form data
onward: a zero-file payload is rejected with the 400 `No files uploaded`
response before any write; otherwise the same upload loop runs.  The
`contributor` field goes through JS `||`, so an empty string also falls
back to the default. -/
def busboyPushHandler (nowIso : String) (files : List MultipartFile)
    (contributorField : Option String) : PushOutcome × List String :=
  if files.length = 0 then (.noFiles, [])
  else
    let contributorName :=
      match contributorField with
      | some s => if s = "" then "Memorial_Guest" else s
      | none => "Memorial_Guest"
    let uploaded := pushUploadedFiles nowIso contributorName files
    (.ok (toString uploaded.length ++ " photo(s) uploaded successfully") uploaded,
     uploaded.map (fun u => u.objectKey))

end Memorial

namespace Memorial

/-! ## Claims C1, C3, C8, C9 -/

/-- C1 (counterexample): with fileHash `"abc123"`, filename `"a.png"`, and an
existence probe that fails with a transient network fault (not a confirmed
not-found), the handler does NOT return `storageUnavailable`: it proceeds to
issue a write credential for the resolved key. -/
theorem c1_counterexample :
    presignUploadHandler "2026-01-01T00:00:00.000Z" "a.png" none (some "abc123")
        (fun _ => .errOther "network timeout")
      = .presigned "Memorial_Guest_UPLOADS/abc123_a.png" "application/octet-stream" 3600
    ∧ presignUploadHandler "2026-01-01T00:00:00.000Z" "a.png" none (some "abc123")
        (fun _ => .errOther "network timeout")
      ≠ .storageUnavailable "network timeout" := by
  constructor
  · decide
  · decide

/-- C1 (amended): when the existence probe for the resolved key fails for any
reason — a confirmed not-found or any other error such as a transient network
fault — the handler treats the failure alike as "file absent" and proceeds to
issue a write credential for that key; it never raises `StorageUnavailable`
from the probe. -/
theorem c1_amended_probe_failure_issues_credential
    (nowIso filename : String) (contentType : Option String) (h : String)
    (head : String → HeadResult)
    (hfn : filename ≠ "")
    (hprobe : head (resolvedKey nowIso (some h) filename) ≠ .found) :
    presignUploadHandler nowIso filename contentType (some h) head
      = .presigned (resolvedKey nowIso (some h) filename)
          (contentType.getD "application/octet-stream") 3600 := by
  unfold presignUploadHandler
  rw [if_neg hfn]
  cases hhead : head (resolvedKey nowIso (some h) filename) with
  | found => exact absurd hhead hprobe
  | errNotFound => simp [hhead]
  | errOther m => simp [hhead]

/-- Witness for the amended C1 theorem at a concrete input. -/
theorem c1_amended_witness :
    presignUploadHandler "2026-01-01T00:00:00.000Z" "a.png" none (some "abc123")
        (fun _ => .errOther "connection reset")
      = .presigned (resolvedKey "2026-01-01T00:00:00.000Z" (some "abc123") "a.png")
          "application/octet-stream" 3600 :=
  c1_amended_probe_failure_issues_credential "2026-01-01T00:00:00.000Z" "a.png" none
    "abc123" (fun _ => .errOther "connection reset") (by decide) (by decide)

/-- C3: in hash mode, when the existence probe on the resolved key reports
that the object exists, the handler answers with the skipped response naming
that existing key, and does not issue a write credential. -/
theorem c3_exists_skips_credential
    (nowIso filename : String) (contentType : Option String) (h : String)
    (head : String → HeadResult)
    (hfn : filename ≠ "")
    (hprobe : head (resolvedKey nowIso (some h) filename) = .found) :
    presignUploadHandler nowIso filename contentType (some h) head
      = .skipped (resolvedKey nowIso (some h) filename) := by
  unfold presignUploadHandler
  rw [if_neg hfn]
  simp [hprobe]

/-- Witness for C3: fileHash `"abc123"`, filename `"a.png"`, probe returns
Exists, so the response is skipped with key
`Memorial_Guest_UPLOADS/abc123_a.png`. -/
theorem c3_witness :
    presignUploadHandler "2026-01-01T00:00:00.000Z" "a.png" none (some "abc123")
        (fun _ => .found)
      = .skipped "Memorial_Guest_UPLOADS/abc123_a.png" := by
  have h := c3_exists_skips_credential "2026-01-01T00:00:00.000Z" "a.png" none "abc123"
    (fun _ => .found) (by decide) rfl
  rw [h]
  decide

/-- C8: every character of the sanitised filename segment lies in the class
`[A-Za-z0-9._-]`; characters outside it were replaced by an underscore. -/
theorem c8_safeFilename_chars (filename : String) (c : Char)
    (hc : c ∈ (safeFilename filename).data) :
    isAllowedFilenameChar c = true := by
  unfold safeFilename at hc
  simp only [String.mk] at hc
  rw [List.mem_map] at hc
  obtain ⟨a, _, ha⟩ := hc
  by_cases h : isAllowedFilenameChar a
  · rw [if_pos h] at ha
    rw [← ha]
    exact h
  · rw [if_neg h] at ha
    rw [← ha]
    decide

/-- Witness for C8: applying the theorem at `"My Photo #1.JPG"`, whose
sanitised form is `My_Photo__1.JPG`. -/
theorem c8_witness :
    isAllowedFilenameChar '_' = true
    ∧ safeFilename "My Photo #1.JPG" = "My_Photo__1.JPG" :=
  ⟨c8_safeFilename_chars "My Photo #1.JPG" '_' (by decide), by decide⟩

/-- C9: hash-addressed key resolution is idempotent across call times (the
timestamp plays no part when a hash is supplied) and injective in the hash
for a fixed filename. -/
theorem c9_hash_key_idempotent_injective
    (t1 t2 filename h1 h2 : String) :
    (h1 = h2 → resolvedKey t1 (some h1) filename = resolvedKey t2 (some h2) filename)
    ∧ (h1 ≠ h2 → resolvedKey t1 (some h1) filename ≠ resolvedKey t2 (some h2) filename) := by
  constructor
  · intro he
    subst he
    rfl
  · intro hne he
    apply hne
    have he2 : "Memorial_Guest_UPLOADS/" ++ h1 ++ "_" ++ safeFilename filename
        = "Memorial_Guest_UPLOADS/" ++ h2 ++ "_" ++ safeFilename filename := he
    have hd := congrArg String.data he2
    simp only [String.data_append, List.append_assoc] at hd
    have hd2 := List.append_cancel_left hd
    have hd3 := List.append_cancel_right hd2
    cases h1; cases h2
    exact congrArg String.mk hd3

/-- Witness for C9: distinct hashes with the same filename yield distinct
keys, at concrete inputs and distinct call times. -/
theorem c9_witness :
    resolvedKey "2026-01-01T00:00:00.000Z" (some "aaa") "f.png"
      ≠ resolvedKey "2026-02-02T00:00:00.000Z" (some "bbb") "f.png" :=
  (c9_hash_key_idempotent_injective "2026-01-01T00:00:00.000Z" "2026-02-02T00:00:00.000Z"
    "f.png" "aaa" "bbb").2 (by decide)

/-! ## Helper lemmas on the shuffle -/

theorem mem_of_swapL {α : Type} {l : List α} {i j : Nat} {a : α}
    (h : a ∈ swapL l i j) : a ∈ l := by
  unfold swapL at h
  split at h
  next x y hi hj =>
    rcases List.mem_or_eq_of_mem_set h with h1 | h1
    · rcases List.mem_or_eq_of_mem_set h1 with h2 | h2
      · exact h2
      · subst h2
        exact List.get?_mem hj
    · subst h1
      exact List.get?_mem hi
  next => exact h

theorem mem_of_fyAux {α : Type} (r : Nat → Nat) (n : Nat) (l : List α) {a : α}
    (h : a ∈ fyAux r l n) : a ∈ l := by
  induction n generalizing l with
  | zero => exact h
  | succ i ih => exact mem_of_swapL (ih _ h)

theorem mem_of_shuffleArray {α : Type} (r : Nat → Nat) (l : List α) {a : α}
    (h : a ∈ shuffleArray r l) : a ∈ l :=
  mem_of_fyAux r _ l h

/-! ## Claims C4, C6, C7 -/

/-- C4: when the service answers with a sequence of truncated pages (each
carrying a continuation marker) followed by a final page, the enumerator
consumes them all and yields the in-order concatenation of every page's
keys; in particular one truncated plus one final page yield the union of
both pages' contents (see the witness). -/
theorem c4_enumerate_all_pages (ps : List ListPage) (q : ListPage)
    (hps : ∀ p ∈ ps, p.isTruncated = true ∧ p.nextToken.isSome = true)
    (hq : q.isTruncated = false ∨ q.nextToken = none) :
    enumerateBucket (ps ++ [q]) = (ps.map ListPage.contents).flatten ++ q.contents := by
  induction ps with
  | nil =>
    rcases hq with h | h
    · simp [enumerateBucket, h]
    · cases ht : q.isTruncated <;> simp [enumerateBucket, h, ht]
  | cons p ps ih =>
    obtain ⟨h1, h2⟩ := hps p (List.mem_cons_self p ps)
    cases htok : p.nextToken with
    | none => rw [htok] at h2; exact absurd h2 (by decide)
    | some t =>
      have ih2 := ih (fun x hx => hps x (List.mem_cons_of_mem p hx))
      simp only [List.cons_append, enumerateBucket, h1, htok, if_pos, List.append_eq]
      rw [ih2]
      simp [List.append_assoc]

/-- Witness for C4: one truncated page then one final page give the union
of the two pages' keys. -/
theorem c4_witness :
    enumerateBucket
      [⟨[⟨"a.jpg", 1, "t1"⟩, ⟨"b.png", 2, "t2"⟩], true, some "token1"⟩,
       ⟨[⟨"c.mp4", 3, "t3"⟩], false, none⟩]
      = [⟨"a.jpg", 1, "t1"⟩, ⟨"b.png", 2, "t2"⟩, ⟨"c.mp4", 3, "t3"⟩] := by
  have h := c4_enumerate_all_pages
    [⟨[⟨"a.jpg", 1, "t1"⟩, ⟨"b.png", 2, "t2"⟩], true, some "token1"⟩]
    ⟨[⟨"c.mp4", 3, "t3"⟩], false, none⟩ (by decide) (by decide)
  exact h.trans (by decide)

/-- C6: every photo of the gallery output has a key that survives the
media filter: its lowercased form does not start with an underscore, does
not contain the substring `manifest`, and ends with one of the allowed
media extensions. -/
theorem c6_gallery_filter (sign : String → String) (r : Nat → Nat)
    (objs : List S3Object) (p : Photo) (hp : p ∈ galleryPhotos sign r objs) :
    strStartsWith (lowerStr p.key) "_" = false
    ∧ strContains (lowerStr p.key) "manifest" = false
    ∧ mediaExtensions.any (fun ext => strEndsWith (lowerStr p.key) ext) = true := by
  unfold galleryPhotos at hp
  rw [List.mem_map] at hp
  obtain ⟨o, ho, rfl⟩ := hp
  have hk : (projectPhoto sign o).key = o.key := rfl
  rw [hk]
  have ho2 : o ∈ shuffleArray r (objs.filter (fun x => isMediaKey x.key)) :=
    List.mem_of_mem_take ho
  have ho3 := mem_of_shuffleArray r _ ho2
  have hmedia : isMediaKey o.key = true := (List.mem_filter.mp ho3).2
  unfold isMediaKey at hmedia
  by_cases hex : strStartsWith (lowerStr o.key) "_" || strContains (lowerStr o.key) "manifest"
  · simp only [hex, if_true] at hmedia
    exact absurd hmedia (by decide)
  · simp only [hex, if_false] at hmedia
    simp only [Bool.or_eq_true, not_or, Bool.not_eq_true] at hex
    exact ⟨hex.1, hex.2, hmedia⟩

/-- Witness for C6 at a concrete listing holding one media object. -/
theorem c6_witness :
    strStartsWith (lowerStr (projectPhoto (fun k => k) ⟨"Memorial_Guest_UPLOADS/x.jpg", 1, "t"⟩).key) "_" = false
    ∧ strContains (lowerStr (projectPhoto (fun k => k) ⟨"Memorial_Guest_UPLOADS/x.jpg", 1, "t"⟩).key) "manifest" = false
    ∧ mediaExtensions.any
        (fun ext => strEndsWith (lowerStr (projectPhoto (fun k => k) ⟨"Memorial_Guest_UPLOADS/x.jpg", 1, "t"⟩).key) ext) = true :=
  c6_gallery_filter (fun k => k) (fun _ => 0)
    [⟨"Memorial_Guest_UPLOADS/x.jpg", 1, "t"⟩]
    (projectPhoto (fun k => k) ⟨"Memorial_Guest_UPLOADS/x.jpg", 1, "t"⟩)
    (by decide)

/-- C7: the gallery sampler takes a prefix of at most 50 of the shuffled
filtered listing, so the photos sequence never exceeds 50 items, whatever
the listing, the randomness, and the signer. -/
theorem c7_gallery_at_most_fifty (sign : String → String) (r : Nat → Nat)
    (objs : List S3Object) :
    (galleryPhotos sign r objs).length ≤ 50 := by
  unfold galleryPhotos
  rw [List.length_map]
  rw [List.length_take]
  omega

/-! ## Helper lemmas on the index search -/

theorem find_eq_filter_head {α : Type} (l : List α) (p : α → Bool) :
    l.find? p = (l.filter p).head? := by
  induction l with
  | nil => rfl
  | cons a as ih =>
    cases h : p a with
    | true => rw [List.find?_cons_of_pos _ h, List.filter_cons_of_pos h, List.head?_cons]
    | false =>
      rw [List.find?_cons_of_neg _ (by simp [h]), List.filter_cons_of_neg (by simp [h])]
      exact ih

theorem bufIndexOf_eq_matches_head (body pat : List Char) (s : Nat) :
    bufIndexOf body pat s
      = ((allMatches body pat).filter (fun j => decide (s ≤ j))).head? := by
  unfold bufIndexOf allMatches
  rw [find_eq_filter_head, List.filter_filter]

theorem allMatches_le (body pat : List Char) (i : Nat)
    (h : i ∈ allMatches body pat) : i ≤ body.length := by
  unfold allMatches at h
  exact Nat.lt_succ_iff.mp (List.mem_range.mp (List.mem_filter.mp h).1)

theorem collectLoop_eq_pairSlices (body : List Char) (c : Char) (cs : List Char)
    (fuel : Nat) :
    ∀ idx : Nat, body.length + 1 ≤ fuel + idx → idx ≤ body.length →
    collectLoop body c cs idx fuel
      = pairSlices body (c :: cs).length
          (idx :: greedyPick (c :: cs).length
            ((allMatches body (c :: cs)).filter
              (fun j => decide (idx + (c :: cs).length ≤ j)))) := by
  induction fuel with
  | zero =>
    intro idx hfuel hidx
    exact absurd hfuel (by omega)
  | succ fuel ih =>
    intro idx hfuel hidx
    cases hM : (allMatches body (c :: cs)).filter
        (fun j => decide (idx + (c :: cs).length ≤ j)) with
    | nil =>
      have hb : bufIndexOf body (c :: cs) (idx + (c :: cs).length) = none := by
        rw [bufIndexOf_eq_matches_head, hM]
        rfl
      have hg : greedyPick (c :: cs).length ([] : List Nat) = [] := by
        simp [greedyPick]
      simp only [collectLoop]
      rw [hb, hg]
      rfl
    | cons b tail =>
      have hb : bufIndexOf body (c :: cs) (idx + (c :: cs).length) = some b := by
        rw [bufIndexOf_eq_matches_head, hM]
        rfl
      have hbmem : b ∈ (allMatches body (c :: cs)).filter
          (fun j => decide (idx + (c :: cs).length ≤ j)) := by
        rw [hM]
        exact List.mem_cons_self b tail
      have hble : idx + (c :: cs).length ≤ b :=
        of_decide_eq_true (List.mem_filter.mp hbmem).2
      have hbbody : b ≤ body.length :=
        allMatches_le body (c :: cs) b (List.mem_filter.mp hbmem).1
      have hplen : 1 ≤ (c :: cs).length := by simp
      have IH := ih b (by omega) hbbody
      have hpred : (fun a : Nat => decide (b + (c :: cs).length ≤ a)
              && decide (idx + (c :: cs).length ≤ a))
          = (fun a : Nat => decide (b + (c :: cs).length ≤ a)) := by
        funext a
        by_cases hj : b + (c :: cs).length ≤ a
        · have h2 : idx + (c :: cs).length ≤ a := by omega
          rw [decide_eq_true hj, decide_eq_true h2]
          rfl
        · rw [decide_eq_false hj]
          rfl
      have htail : tail.filter (fun j => decide (b + (c :: cs).length ≤ j))
          = (allMatches body (c :: cs)).filter
              (fun j => decide (b + (c :: cs).length ≤ j)) := by
        have h1 : (allMatches body (c :: cs)).filter
              (fun j => decide (b + (c :: cs).length ≤ j))
            = ((allMatches body (c :: cs)).filter
                (fun j => decide (idx + (c :: cs).length ≤ j))).filter
                (fun j => decide (b + (c :: cs).length ≤ j)) := by
          rw [List.filter_filter, hpred]
        rw [h1, hM, List.filter_cons_of_neg]
        simp only [decide_eq_true_eq]
        omega
      simp only [collectLoop]
      rw [hb]
      dsimp only
      simp only [greedyPick]
      rw [htail, IH]
      rfl

/-! ## Claim C5 -/

/-- C5: the segment-collection loop halts on every input (it is a total
function) and returns exactly the parts delimited by consecutive boundary
occurrences: the slices between adjacent offsets of the greedy occurrence
list, a final occurrence with no closing pair contributing nothing.
Consequently the whole parser processes exactly those fully delimited
parts. -/
theorem c5_truncation_returns_delimited_parts (body boundary : List Char) :
    segmentsOf body boundary
      = pairSlices body ('-' :: '-' :: boundary).length
          (occList body ('-' :: '-' :: boundary))
    ∧ parseMultipart body boundary
      = (pairSlices body ('-' :: '-' :: boundary).length
          (occList body ('-' :: '-' :: boundary))).foldl processPart
          { files := [], contributor := "Memorial_Guest" } := by
  have hfilter0 : (allMatches body ('-' :: '-' :: boundary)).filter
        (fun j => decide (0 ≤ j))
      = allMatches body ('-' :: '-' :: boundary) := by
    have hp0 : (fun j : Nat => decide (0 ≤ j)) = fun _ => true := by
      funext j
      simp
    rw [hp0, List.filter_true]
  have hseg : segmentsOf body boundary
      = pairSlices body ('-' :: '-' :: boundary).length
          (occList body ('-' :: '-' :: boundary)) := by
    unfold segmentsOf occList
    cases hM : allMatches body ('-' :: '-' :: boundary) with
    | nil =>
      have hb : bufIndexOf body ('-' :: '-' :: boundary) 0 = none := by
        rw [bufIndexOf_eq_matches_head, hfilter0, hM]
        rfl
      have hg : greedyPick ('-' :: '-' :: boundary).length ([] : List Nat) = [] := by
        simp [greedyPick]
      rw [hb, hg]
      rfl
    | cons i0 tail =>
      have hb : bufIndexOf body ('-' :: '-' :: boundary) 0 = some i0 := by
        rw [bufIndexOf_eq_matches_head, hfilter0, hM]
        rfl
      have hi0mem : i0 ∈ allMatches body ('-' :: '-' :: boundary) := by
        rw [hM]
        exact List.mem_cons_self i0 tail
      have hi0le : i0 ≤ body.length :=
        allMatches_le body ('-' :: '-' :: boundary) i0 hi0mem
      rw [hb]
      dsimp only
      have hcl := collectLoop_eq_pairSlices body '-' ('-' :: boundary)
        (body.length + 1) i0 (by omega) hi0le
      rw [hcl]
      simp only [greedyPick]
      have hT : (allMatches body ('-' :: '-' :: boundary)).filter
            (fun j => decide (i0 + ('-' :: '-' :: boundary).length ≤ j))
          = tail.filter (fun j => decide (i0 + ('-' :: '-' :: boundary).length ≤ j)) := by
        rw [hM, List.filter_cons_of_neg]
        simp only [decide_eq_true_eq]
        simp only [List.length_cons]
        omega
      rw [hT]
  exact ⟨hseg, by unfold parseMultipart; rw [hseg]⟩

/-! ## Claims C2, C10 -/

/-- C2 (counterexample): a push body whose decoded multipart payload holds a
contributor form field and zero file parts makes the manual-parser push
handler answer with the 200 success response announcing zero uploads (and no
writes) — not with the 400 `No files uploaded` rejection the claim requires
of every push-ingestion request. -/
theorem c2_counterexample :
    manualPushHandler "2026-01-01T00:00:00.000Z"
        (parseMultipart
          "--XYZ\r\nContent-Disposition: form-data; name=\"contributor\"\r\n\r\nAlice\r\n--XYZ--".data
          "XYZ".data)
      = (.ok "0 photo(s) uploaded successfully" [], [])
    ∧ (parseMultipart
          "--XYZ\r\nContent-Disposition: form-data; name=\"contributor\"\r\n\r\nAlice\r\n--XYZ--".data
          "XYZ".data).files = [] := by
  constructor
  · decide
  · decide

/-- C2 (amended): on a decoded payload with zero file parts, the
busboy-based push handler returns the 400 `No files uploaded` rejection and
performs no storage writes, while the manual-parser push handler instead
returns the 200 success response with an empty file list (also performing no
writes). -/
theorem c2_amended_zero_files (nowIso : String) (cf : Option String)
    (parsed : MultipartResult) (hp : parsed.files = []) :
    busboyPushHandler nowIso [] cf = (.noFiles, [])
    ∧ manualPushHandler nowIso parsed = (.ok "0 photo(s) uploaded successfully" [], []) := by
  constructor
  · rfl
  · unfold manualPushHandler pushUploadedFiles
    rw [hp]
    dsimp only [List.map_nil, List.length_nil]
    rfl

/-- Witness for the amended C2 theorem at a concrete parse result. -/
theorem c2_amended_witness :
    busboyPushHandler "2026-01-01T00:00:00.000Z" [] (some "Alice") = (.noFiles, [])
    ∧ manualPushHandler "2026-01-01T00:00:00.000Z" ⟨[], "Bob"⟩
        = (.ok "0 photo(s) uploaded successfully" [], []) :=
  c2_amended_zero_files "2026-01-01T00:00:00.000Z" (some "Alice") ⟨[], "Bob"⟩ rfl

/-- C10: once the blank-line separator is located at the end of the header
block, the parser strips the final two bytes of the raw body whatever they
are: a body `raw ++ [a, b]` decodes to `raw` even when `a, b` are not CRLF,
and a raw body shorter than two bytes decodes to the empty byte sequence. -/
theorem c10_last_two_bytes_always_stripped (hdr raw : List Char) (a b c : Char)
    (h1 : bufIndexOf (hdr ++ (crlfcrlf ++ (raw ++ [a, b]))) crlfcrlf 0 = some hdr.length)
    (h2 : bufIndexOf (hdr ++ (crlfcrlf ++ [c])) crlfcrlf 0 = some hdr.length)
    (h3 : bufIndexOf (hdr ++ crlfcrlf) crlfcrlf 0 = some hdr.length) :
    segBody (hdr ++ (crlfcrlf ++ (raw ++ [a, b]))) = some raw
    ∧ segBody (hdr ++ (crlfcrlf ++ [c])) = some []
    ∧ segBody (hdr ++ crlfcrlf) = some [] := by
  have hdrop : ∀ rest : List Char, (hdr ++ (crlfcrlf ++ rest)).drop (hdr.length + 4) = rest := by
    intro rest
    rw [← List.append_assoc]
    have hlen : (hdr ++ crlfcrlf).length = hdr.length + 4 := by
      rw [List.length_append]
      rfl
    rw [← hlen, List.drop_left]
  refine ⟨?_, ?_, ?_⟩
  · unfold segBody
    rw [h1]
    dsimp only
    unfold cleanBody
    dsimp only
    rw [hdrop]
    have hlen2 : (raw ++ [a, b]).length - 2 = raw.length := by
      simp
    rw [hlen2, List.take_left]
  · unfold segBody
    rw [h2]
    dsimp only
    unfold cleanBody
    dsimp only
    rw [hdrop]
    rfl
  · unfold segBody
    rw [h3]
    dsimp only
    unfold cleanBody
    dsimp only
    have hd3 : (hdr ++ crlfcrlf).drop (hdr.length + 4) = ([] : List Char) := by
      have h0 := hdrop []
      rw [List.append_nil] at h0
      exact h0
    rw [hd3]
    rfl

/-- Witness for C10: a one-byte header, the body `xy` followed by the two
non-CRLF bytes `PQ` (stripped anyway), a one-byte body, and an empty body. -/
theorem c10_witness :
    segBody ("H".data ++ (crlfcrlf ++ ("xy".data ++ ['P', 'Q']))) = some "xy".data
    ∧ segBody ("H".data ++ (crlfcrlf ++ ['R'])) = some []
    ∧ segBody ("H".data ++ crlfcrlf) = some [] :=
  c10_last_two_bytes_always_stripped "H".data "xy".data 'P' 'Q' 'R'
    (by decide) (by decide) (by decide)

end Memorial
